import Mathlib

/-
Verification of the one-period portfolio-choice solver in
HARK/ConsumptionSaving/ConsPortfolioModelALT.py.

The numeric type of the embedding is ℚ.  The source computes with numpy
floats; its power operator x ** y is represented by an abstract parameter
rpw : ℚ → ℚ → ℚ wherever a power is taken, and the concrete stand-in
ratPow (exact on integer exponents, the only ones used by the concrete
runs below) instantiates it in closed theorems.  The float value NaN,
which the source can produce by evaluating 0.0/0.0, has no rational
counterpart: the per-asset share-selection step is therefore described by
an explicit outcome type (LevelOut) whose nanOut constructor marks the
0/0 case, and a free parameter nanQ stands for the NaN payload wherever a
grid value must be produced.
-/

namespace ConsPortfolio

/-- Line through the two points p and q, evaluated at x
(the basic linear-interpolation segment). -/
def lineThrough (p q : ℚ × ℚ) (x : ℚ) : ℚ :=
  p.2 + (q.2 - p.2) * ((x - p.1) / (q.1 - p.1))

/-- Modelled from the spec: piecewise-linear interpolation through a list of
knots (HARK.interpolation.LinearInterp is not under src/).  Below the first
knot the first value is returned; between knots the segments are linear;
beyond the last knot the last segment is extended linearly. -/
def interpSegs (p : ℚ × ℚ) : List (ℚ × ℚ) → ℚ → ℚ
  | [], _ => p.2
  | q :: rest, x =>
      if x ≤ p.1 then p.2
      else if rest = [] ∨ x ≤ q.1 then lineThrough p q x
      else interpSegs q rest x

/-- Piecewise-linear interpolation over parallel lists of x-knots and
y-values (empty grids evaluate to 0). -/
def linearInterpEvalRaw (xs ys : List ℚ) (x : ℚ) : ℚ :=
  match xs.zip ys with
  | [] => 0
  | p :: rest => interpSegs p rest x

/-- Modelled from the spec: a LinearInterp built with an intercept limit and a
slope limit evaluates, beyond its last grid point, on the limiting line
intercept + slope * x (spec 4.5 step 6: slope 0 and intercept equal to the
asymptotic share limit); elsewhere it is the piecewise-linear interpolant. -/
def linearInterpEvalFn (xs ys : List ℚ) (limits : Option (ℚ × ℚ)) (x : ℚ) : ℚ :=
  match limits with
  | some l => if xs.getLastD 0 < x then l.1 + l.2 * x else linearInterpEvalRaw xs ys x
  | none => linearInterpEvalRaw xs ys x

/-- CRRA utility u(c) = c^(1-CRRA)/(1-CRRA), with the power taken by the
abstract power function rpw. -/
def utilityFn (rpw : ℚ → ℚ → ℚ) (crra c : ℚ) : ℚ :=
  rpw c (1 - crra) / (1 - crra)

/-- CRRA marginal utility u'(c) = c^(-CRRA). -/
def utilityP (rpw : ℚ → ℚ → ℚ) (crra c : ℚ) : ℚ :=
  rpw c (-crra)

/-- The closed set of policy/value function representations the program
builds (HARK's LinearInterp, ConstantFunction, IdentityFunction, ValueFunc,
MargValueFunc, ValueFunc2D, MargValueFunc2D, LinearInterpOnInterp1D
objects, and the NullFunc placeholder that raises when invoked).
A linearInterpOnInterp1D holds its 1-D slices as raw knot lists, since in
this program every slice is a LinearInterp. -/
inductive PFunc where
  | nullFunc
  | linearInterp (xs ys : List ℚ) (limits : Option (ℚ × ℚ))
  | constantFn (v : ℚ)
  | identityFn (iDim nDims : Nat)
  | valueFunc (c : PFunc) (crra : ℚ)
  | margValueFunc (c : PFunc) (crra : ℚ)
  | valueFunc2D (c : PFunc) (crra : ℚ)
  | margValueFunc2D (c : PFunc) (crra : ℚ)
  | linearInterpOnInterp1D (slices : List (List ℚ × List ℚ)) (grid : List ℚ)
deriving DecidableEq, Repr

/-- Evaluate a PFunc at (x, y); 1-D functions ignore y.  nullFunc evaluates
to none, mirroring the NullFunc placeholder that raises when invoked. -/
def PFunc.eval (rpw : ℚ → ℚ → ℚ) : PFunc → ℚ → ℚ → Option ℚ
  | .nullFunc, _, _ => none
  | .linearInterp xs ys limits, x, _ => some (linearInterpEvalFn xs ys limits x)
  | .constantFn v, _, _ => some v
  | .identityFn iDim _, x, y => some (if iDim = 0 then x else y)
  | .valueFunc c crra, x, y => (c.eval rpw x y).map (utilityFn rpw crra)
  | .margValueFunc c crra, x, y => (c.eval rpw x y).map (utilityP rpw crra)
  | .valueFunc2D c crra, x, y => (c.eval rpw x y).map (utilityFn rpw crra)
  | .margValueFunc2D c crra, x, y => (c.eval rpw x y).map (utilityP rpw crra)
  | .linearInterpOnInterp1D slices grid, x, y =>
      some (linearInterpEvalRaw grid
        (slices.map fun sl => linearInterpEvalRaw sl.1 sl.2 x) y)

/-- Whether a solution field is the NullFunc placeholder. -/
def PFunc.isNullFunc : PFunc → Bool
  | .nullFunc => true
  | _ => false

/-- The single-period solution bundle (class PortfolioSolution).  A field
not supplied at construction defaults to the NullFunc placeholder, exactly
as the None-to-NullFunc replacement in PortfolioSolution.__init__. -/
structure PortfolioSolution where
  cFuncAdj : PFunc := .nullFunc
  ShareFuncAdj : PFunc := .nullFunc
  vFuncAdj : PFunc := .nullFunc
  vPfuncAdj : PFunc := .nullFunc
  cFuncFxd : PFunc := .nullFunc
  ShareFuncFxd : PFunc := .nullFunc
  vFuncFxd : PFunc := .nullFunc
  dvdmFuncFxd : PFunc := .nullFunc
  dvdsFuncFxd : PFunc := .nullFunc
deriving DecidableEq, Repr

/-- PortfolioConsumerType.updateSolutionTerminal: consume all market
resources, risky share 0 in the adjusting case, the identity projection on
the share argument in the fixed case, CRRA (marginal) utility value
functions, and zero marginal value of share. -/
def solutionTerminal (CRRA : ℚ) : PortfolioSolution :=
  { cFuncAdj := .identityFn 0 1
    cFuncFxd := .identityFn 0 2
    ShareFuncAdj := .constantFn 0
    ShareFuncFxd := .identityFn 1 2
    vFuncAdj := .valueFunc (.identityFn 0 1) CRRA
    vFuncFxd := .valueFunc2D (.identityFn 0 2) CRRA
    vPfuncAdj := .margValueFunc (.identityFn 0 1) CRRA
    dvdmFuncFxd := .margValueFunc2D (.identityFn 0 2) CRRA
    dvdsFuncFxd := .constantFn 0 }

/-- One atom of the joint shock distribution: ShockDstn's four parallel
arrays (probability, permanent shock, transitory shock, risky return),
zipped into one record per atom. -/
structure ShockAtom where
  prb : ℚ
  perm : ℚ
  tran : ℚ
  risky : ℚ
deriving DecidableEq, Repr

/-- The inputs of solveConsPortfolio, in the source's parameter order.
LivPrb is carried for fidelity; the source never reads it. -/
structure SolveIn where
  solution_next : PortfolioSolution
  shocks : List ShockAtom
  LivPrb : ℚ
  DiscFac : ℚ
  CRRA : ℚ
  Rfree : ℚ
  PermGroFac : ℚ
  BoroCnstArt : ℚ
  aXtraGrid : List ℚ
  ShareGrid : List ℚ
  vFuncBool : Bool
  AdjustPrb : ℚ
  ShareLimit : ℚ
deriving DecidableEq, Repr

/-- aNrmGrid = np.insert(aXtraGrid, 0, 0.0): an asset point at exactly 0
is prepended. -/
def aNrmGridOf (I : SolveIn) : List ℚ :=
  0 :: I.aXtraGrid

/-- Portfolio return factor Rport = (1-Share)*Rfree + Share*Risky. -/
def RportOf (I : SolveIn) (s : ℚ) (t : ShockAtom) : ℚ :=
  (1 - s) * I.Rfree + s * t.risky

/-- Next period's normalized resources
mNrm_next = Rport*aNrm/(PermShk*PermGroFac) + TranShk. -/
def mNext (I : SolveIn) (a s : ℚ) (t : ShockAtom) : ℚ :=
  RportOf I s t * a / (t.perm * I.PermGroFac) + t.tran

/-- temp_fac_A = (PermShk*PermGroFac)^(-CRRA). -/
def tfA (rpw : ℚ → ℚ → ℚ) (I : SolveIn) (t : ShockAtom) : ℚ :=
  rpw (t.perm * I.PermGroFac) (-I.CRRA)

/-- temp_fac_B = (PermShk*PermGroFac)^(1-CRRA). -/
def tfB (rpw : ℚ → ℚ → ℚ) (I : SolveIn) (t : ShockAtom) : ℚ :=
  rpw (t.perm * I.PermGroFac) (1 - I.CRRA)

/-- Realization of next period's marginal value of resources (lines
419-424): the adjusting marginal value always, blended with the fixed one
by AdjustPrb when AdjustPrb < 1; the fixed evaluation is skipped entirely
when AdjustPrb = 1.  none marks an invocation of a NullFunc placeholder. -/
def dvdmNext (rpw : ℚ → ℚ → ℚ) (I : SolveIn) (a s : ℚ) (t : ShockAtom) : Option ℚ :=
  let m := mNext I a s t
  if I.AdjustPrb < 1 then
    match I.solution_next.vPfuncAdj.eval rpw m 0,
          I.solution_next.dvdmFuncFxd.eval rpw m s with
    | some dA, some dF => some (I.AdjustPrb * dA + (1 - I.AdjustPrb) * dF)
    | _, _ => none
  else I.solution_next.vPfuncAdj.eval rpw m 0

/-- Realization of next period's marginal value of share (lines 427-432):
the adjusting case contributes exactly zero. -/
def dvdsNext (rpw : ℚ → ℚ → ℚ) (I : SolveIn) (a s : ℚ) (t : ShockAtom) : Option ℚ :=
  let m := mNext I a s t
  if I.AdjustPrb < 1 then
    match I.solution_next.dvdsFuncFxd.eval rpw m s with
    | some dF => some (I.AdjustPrb * 0 + (1 - I.AdjustPrb) * dF)
    | none => none
  else some 0

/-- Realization of next period's value (lines 435-443): evaluated only when
vFuncBool is set, otherwise the trivial zero array. -/
def vNext (rpw : ℚ → ℚ → ℚ) (I : SolveIn) (a s : ℚ) (t : ShockAtom) : Option ℚ :=
  let m := mNext I a s t
  if I.vFuncBool then
    if I.AdjustPrb < 1 then
      match I.solution_next.vFuncAdj.eval rpw m 0,
            I.solution_next.vFuncFxd.eval rpw m s with
      | some vA, some vF => some (I.AdjustPrb * vA + (1 - I.AdjustPrb) * vF)
      | _, _ => none
    else I.solution_next.vFuncAdj.eval rpw m 0
  else some 0

/-- Probability-weighted sum over the shock dimension; none if any
realization failed to evaluate. -/
def expectSum (f : ShockAtom → Option ℚ) : List ShockAtom → Option ℚ
  | [] => some 0
  | t :: rest =>
      match f t, expectSum f rest with
      | some v, some acc => some (v + acc)
      | _, _ => none

/-- Sequence a list of fallible evaluations (List.mapM for Option, written
recursively). -/
def seqO {α β : Type} (f : α → Option β) : List α → Option (List β)
  | [] => some []
  | a :: rest =>
      match f a, seqO f rest with
      | some b, some bs => some (b :: bs)
      | _, _ => none

/-- End-of-period marginal value of assets (line 447):
EndOfPrddvda = DiscFac * sum(prb * Rport * temp_fac_A * dvdm_next). -/
def EndOfPrddvda (rpw : ℚ → ℚ → ℚ) (I : SolveIn) (a s : ℚ) : Option ℚ :=
  (expectSum (fun t => (dvdmNext rpw I a s t).map
      fun dv => t.prb * RportOf I s t * tfA rpw I t * dv) I.shocks).map
    fun v => I.DiscFac * v

/-- The inverted surface (line 448): EndOfPrddvdaNvrs = EndOfPrddvda^(-1/CRRA). -/
def EndOfPrddvdaNvrs (rpw : ℚ → ℚ → ℚ) (I : SolveIn) (a s : ℚ) : Option ℚ :=
  (EndOfPrddvda rpw I a s).map fun v => rpw v (-1 / I.CRRA)

/-- End-of-period value (line 452):
EndOfPrdv = DiscFac * sum(prb * temp_fac_B * v_next). -/
def EndOfPrdv (rpw : ℚ → ℚ → ℚ) (I : SolveIn) (a s : ℚ) : Option ℚ :=
  (expectSum (fun t => (vNext rpw I a s t).map
      fun v => t.prb * tfB rpw I t * v) I.shocks).map
    fun v => I.DiscFac * v

/-- End-of-period marginal value of risky share (lines 455-456), using the
excess return Rxs = Rport - Rfree:
EndOfPrddvds = DiscFac * sum(prb * (Rxs*aNrm*temp_fac_A*dvdm_next
                                    + temp_fac_B*dvds_next)). -/
def EndOfPrddvds (rpw : ℚ → ℚ → ℚ) (I : SolveIn) (a s : ℚ) : Option ℚ :=
  (expectSum (fun t =>
      match dvdmNext rpw I a s t, dvdsNext rpw I a s t with
      | some dm, some ds =>
          some (t.prb * ((RportOf I s t - I.Rfree) * a * tfA rpw I t * dm
                 + tfB rpw I t * ds))
      | _, _ => none) I.shocks).map
    fun v => I.DiscFac * v

/-- The FOC_s surface materialised over the (asset, share) grid. -/
def FOCmatOf (rpw : ℚ → ℚ → ℚ) (I : SolveIn) : Option (List (List ℚ)) :=
  seqO (fun a => seqO (fun s => EndOfPrddvds rpw I a s) I.ShareGrid) (aNrmGridOf I)

/-- The inverted consumption surface materialised over the grid. -/
def cMatOf (rpw : ℚ → ℚ → ℚ) (I : SolveIn) : Option (List (List ℚ)) :=
  seqO (fun a => seqO (fun s => EndOfPrddvdaNvrs rpw I a s) I.ShareGrid) (aNrmGridOf I)

/-- The end-of-period value surface materialised over the grid (computed by
the source at line 452; its values are never used afterwards, but its
evaluation can raise on a NullFunc). -/
def vMatOf (rpw : ℚ → ℚ → ℚ) (I : SolveIn) : Option (List (List ℚ)) :=
  seqO (fun a => seqO (fun s => EndOfPrdv rpw I a s) I.ShareGrid) (aNrmGridOf I)

/-- The data the share-selection loop (lines 458-484) reads: the asset
grid, the share grid, the FOC_s surface and the EndOfPrddvdaNvrs surface. -/
structure SelCtx where
  A : List ℚ
  S : List ℚ
  FOC : List (List ℚ)
  c : List (List ℚ)
deriving DecidableEq, Repr

/-- Build the selection context from the solver inputs and surfaces. -/
def ctxOf (I : SolveIn) (F c : List (List ℚ)) : SelCtx :=
  ⟨aNrmGridOf I, I.ShareGrid, F, c⟩

/-- Entry (j,k) of the FOC_s surface. -/
def FOCget (C : SelCtx) (j k : ℕ) : ℚ :=
  (C.FOC.getD j []).getD k 0

/-- Entry (j,k) of the inverted consumption surface. -/
def cget (C : SelCtx) (j k : ℕ) : ℚ :=
  (C.c.getD j []).getD k 0

/-- Line 462: constrained = FOC_s[:,-1] > 0 (the agent wants more than 100%
in the risky asset). -/
def constrainedB (C : SelCtx) (j : ℕ) : Bool :=
  if 0 < FOCget C j (C.S.length - 1) then true else false

/-- Line 469: crossing = (FOC_s[:,1:] <= 0) and (FOC_s[:,:-1] >= 0). -/
def crossingB (C : SelCtx) (j k : ℕ) : Bool :=
  if FOCget C j (k + 1) ≤ 0 ∧ 0 ≤ FOCget C j k then true else false

/-- Line 473: np.argwhere(crossing[j,:])[-1][0], the highest-share
bracketing pair; none when argwhere is empty (the IndexError path). -/
def lastCrossing (C : SelCtx) (j : ℕ) : Option ℕ :=
  ((List.range (C.S.length - 1)).filter (crossingB C j)).getLast?

/-- The zero-crossing fraction (line 480): alpha = 1 - top_f/(top_f - bot_f). -/
def alphaOf (C : SelCtx) (j k : ℕ) : ℚ :=
  1 - FOCget C j (k + 1) / (FOCget C j (k + 1) - FOCget C j k)

/-- Outcome of the share-selection loop at one asset level:
preset    - the level was already assigned before the loop (j = 0, or
            share-constrained at the top share), lines 462-466;
interior  - a bracketing pair was found and interpolated, lines 473-482;
nanOut    - a bracketing pair was found but top_f - bot_f = 0, so the
            float division 0.0/0.0 makes alpha (and hence the stored
            share and consumption) NaN;
failure   - no bracketing pair: the except branch prints the diagnostic
            and leaves the defaults (share 0, consumption 0), lines 483-484. -/
inductive LevelOut where
  | preset (share c : ℚ)
  | interior (share c : ℚ)
  | nanOut
  | failure
deriving DecidableEq, Repr

/-- The share-selection loop body at asset level j. -/
def levelOut (C : SelCtx) (j : ℕ) : LevelOut :=
  if j = 0 ∨ constrainedB C j then .preset 1 (cget C j (C.S.length - 1))
  else
    match lastCrossing C j with
    | none => .failure
    | some k =>
        if FOCget C j (k + 1) - FOCget C j k = 0 then .nanOut
        else
          .interior
            ((1 - alphaOf C j k) * C.S.getD k 0 + alphaOf C j k * C.S.getD (k + 1) 0)
            ((1 - alphaOf C j k) * cget C j k + alphaOf C j k * cget C j (k + 1))

/-- The stored share at level j (nanQ stands in for the float NaN). -/
def shareVal (nanQ : ℚ) (C : SelCtx) (j : ℕ) : ℚ :=
  match levelOut C j with
  | .preset s _ => s
  | .interior s _ => s
  | .nanOut => nanQ
  | .failure => 0

/-- The stored adjusting consumption at level j. -/
def cAdjVal (nanQ : ℚ) (C : SelCtx) (j : ℕ) : ℚ :=
  match levelOut C j with
  | .preset _ c => c
  | .interior _ c => c
  | .nanOut => nanQ
  | .failure => 0

/-- The asset values for which line 484 printed
'No optimal controls found for a=...'. -/
def diagnosticsOf (C : SelCtx) : List ℚ :=
  (List.range C.A.length).filterMap fun j =>
    if levelOut C j = .failure then some (C.A.getD j 0) else none

/-- Line 488: mNrmAdj_now = np.insert(aNrmGrid + cNrmAdj_now, 0, 0.0). -/
def mNrmAdjList (nanQ : ℚ) (C : SelCtx) : List ℚ :=
  0 :: (List.range C.A.length).map fun j => C.A.getD j 0 + cAdjVal nanQ C j

/-- Line 489: cNrmAdj_now with the degenerate point 0 prepended. -/
def cNrmAdjList (nanQ : ℚ) (C : SelCtx) : List ℚ :=
  0 :: (List.range C.A.length).map (cAdjVal nanQ C)

/-- Line 490: Share_now with the degenerate point 1 prepended. -/
def shareListOf (nanQ : ℚ) (C : SelCtx) : List ℚ :=
  1 :: (List.range C.A.length).map (shareVal nanQ C)

/-- Line 493: the adjusting consumption function. -/
def cFuncAdjOf (nanQ : ℚ) (C : SelCtx) : PFunc :=
  .linearInterp (mNrmAdjList nanQ C) (cNrmAdjList nanQ C) none

/-- Lines 501-506: the per-share fixed consumption interpolants, each with
a leading degenerate point at (0,0). -/
def cFxdSlices (C : SelCtx) : List (List ℚ × List ℚ) :=
  (List.range C.S.length).map fun k =>
    (0 :: (List.range C.A.length).map (fun j => C.A.getD j 0 + cget C j k),
     0 :: (List.range C.A.length).map fun j => cget C j k)

/-- Lines 501-507: the per-share marginal-value-of-share interpolants, each
prepended with x = 0 carrying the boundary value EndOfPrddvds[0,k]. -/
def dvdsFxdSlices (C : SelCtx) : List (List ℚ × List ℚ) :=
  (List.range C.S.length).map fun k =>
    (0 :: (List.range C.A.length).map (fun j => C.A.getD j 0 + cget C j k),
     FOCget C 0 k :: (List.range C.A.length).map fun j => FOCget C j k)

/-- Lines 486-526: assemble this period's PortfolioSolution from the
selection context.  vFuncAdj and vFuncFxd are not passed and therefore
default to the NullFunc placeholder. -/
def buildSolution (nanQ crra shareLimit : ℚ) (C : SelCtx) : PortfolioSolution :=
  { cFuncAdj := cFuncAdjOf nanQ C
    ShareFuncAdj := .linearInterp (mNrmAdjList nanQ C) (shareListOf nanQ C)
      (some (shareLimit, 0))
    vPfuncAdj := .margValueFunc (cFuncAdjOf nanQ C) crra
    cFuncFxd := .linearInterpOnInterp1D (cFxdSlices C) C.S
    ShareFuncFxd := .identityFn 1 2
    dvdmFuncFxd := .margValueFunc2D (.linearInterpOnInterp1D (cFxdSlices C) C.S) crra
    dvdsFuncFxd := .linearInterpOnInterp1D (dvdsFxdSlices C) C.S }

/-- How a call of solveConsPortfolio can fail:
boroCnst       - the AttributeError raised at lines 385-386 when the
                 borrowing constraint is not exactly 0;
emptyShareGrid - the IndexError FOC_s[:,-1] raises at line 462 when the
                 share grid is empty;
nextEval       - a NullFunc placeholder of next period's solution was
                 invoked while forming the expectations (lines 419-443). -/
inductive SolveErr where
  | boroCnst
  | emptyShareGrid
  | nextEval
deriving DecidableEq, Repr

/-- solveConsPortfolio: the one-period solver.  Returns the constructed
PortfolioSolution together with the list of asset values for which the
bracketing diagnostic was printed. -/
def solveConsPortfolio (rpw : ℚ → ℚ → ℚ) (nanQ : ℚ) (I : SolveIn) :
    Except SolveErr (PortfolioSolution × List ℚ) :=
  if I.BoroCnstArt ≠ 0 then .error .boroCnst
  else if I.ShareGrid = [] then .error .emptyShareGrid
  else
    match FOCmatOf rpw I, cMatOf rpw I, vMatOf rpw I with
    | some F, some c, some _ =>
        .ok (buildSolution nanQ I.CRRA I.ShareLimit (ctxOf I F c),
             diagnosticsOf (ctxOf I F c))
    | _, _, _ => .error .nextEval

/-- Rational stand-in for the float power operator: exact on integer
exponents and on base 1, the only cases exercised by the concrete runs
below (all of which set CRRA = 1 and keep PermShk*PermGroFac = 1). -/
def ratPow (x y : ℚ) : ℚ :=
  if y = 0 then 1
  else if y = 1 then x
  else if y = -1 then x⁻¹
  else if y = 2 then x * x
  else if y = -2 then (x * x)⁻¹
  else if x = 1 then 1
  else 0

/-- A concrete solver input: terminal next solution, a single risky-return
atom of 2 against a risk-free factor of 1, asset grid {0,1}, share grid
{0,1}, AdjustPrb 1, and the value-function flag set. -/
def X1 : SolveIn :=
  { solution_next := solutionTerminal 1
    shocks := [⟨1, 1, 1, 2⟩]
    LivPrb := 1, DiscFac := 1, CRRA := 1, Rfree := 1, PermGroFac := 1, BoroCnstArt := 0
    aXtraGrid := [1], ShareGrid := [0, 1]
    vFuncBool := true, AdjustPrb := 1, ShareLimit := 1/2 }

/-- A concrete solver input whose risky return (point mass at 1/2) is
dominated by the risk-free factor 1 while the share grid starts at 1/2, so
at a = 1 the marginal value of share is negative at every grid share and no
bracketing pair exists: the diagnostic path is taken. -/
def X2 : SolveIn :=
  { solution_next := solutionTerminal 1
    shocks := [⟨1, 1, 1, 1/2⟩]
    LivPrb := 1, DiscFac := 1, CRRA := 1, Rfree := 1, PermGroFac := 1, BoroCnstArt := 0
    aXtraGrid := [1], ShareGrid := [1/2, 1]
    vFuncBool := false, AdjustPrb := 1, ShareLimit := 1/3 }

/-- The FOC_s surface of the X2 run. -/
def X2F : List (List ℚ) := [[0, 0], [-1/7, -1/3]]

/-- The inverted consumption surface of the X2 run. -/
def X2c : List (List ℚ) := [[4/3, 2], [7/3, 3]]

/-- A concrete solver input with a two-atom risky return {0, 3} and share
grid {0, 1/2, 1}, for which the a = 1 level has an interior zero crossing
at the pair (1/2, 1). -/
def X3 : SolveIn :=
  { solution_next := solutionTerminal 1
    shocks := [⟨1/2, 1, 1, 0⟩, ⟨1/2, 1, 1, 3⟩]
    LivPrb := 1, DiscFac := 1, CRRA := 1, Rfree := 1, PermGroFac := 1, BoroCnstArt := 0
    aXtraGrid := [1], ShareGrid := [0, 1/2, 1]
    vFuncBool := false, AdjustPrb := 1, ShareLimit := 1/3 }

/-- The FOC_s surface of the X3 run. -/
def X3F : List (List ℚ) := [[0, 0, 0], [0, 0, -1/4]]

/-- The inverted consumption surface of the X3 run. -/
def X3c : List (List ℚ) := [[1, 4/5, 2/3], [2, 2, 8/3]]

/-- A concrete solver input whose risky return is a point mass exactly
equal to the risk-free factor (zero risky premium) with AdjustPrb = 1. -/
def X6 : SolveIn :=
  { solution_next := solutionTerminal 1
    shocks := [⟨1, 1, 1, 1⟩]
    LivPrb := 1, DiscFac := 1, CRRA := 1, Rfree := 1, PermGroFac := 1, BoroCnstArt := 0
    aXtraGrid := [1, 2], ShareGrid := [0, 1/2, 1]
    vFuncBool := false, AdjustPrb := 1, ShareLimit := 1/2 }

/-- The FOC_s surface of the X6 run: identically zero. -/
def X6F : List (List ℚ) := [[0, 0, 0], [0, 0, 0], [0, 0, 0]]

/-- The inverted consumption surface of the X6 run. -/
def X6c : List (List ℚ) := [[1, 1, 1], [2, 2, 2], [3, 3, 3]]

/-- A next-period solution whose adjusting marginal value of resources is
increasing in resources (the line 1 + 2m on [0,100]); every other field is
the NullFunc placeholder.  With AdjustPrb = 1 and the value flag off, the
solver only ever invokes vPfuncAdj. -/
def nextX7 : PortfolioSolution :=
  { vPfuncAdj := .linearInterp [0, 100] [1, 201] none }

/-- A concrete solver input (next solution nextX7, risky point mass 2)
whose selected consumption values decrease along the asset grid, so the
adjusting consumption function is not monotone. -/
def X7 : SolveIn :=
  { solution_next := nextX7
    shocks := [⟨1, 1, 1, 2⟩]
    LivPrb := 1, DiscFac := 1, CRRA := 1, Rfree := 1, PermGroFac := 1, BoroCnstArt := 0
    aXtraGrid := [1, 2], ShareGrid := [0, 1]
    vFuncBool := false, AdjustPrb := 1, ShareLimit := 1/2 }


/-- The FOC_s surface of the X1 run. -/
def X1F : List (List ℚ) := [[0, 0], [0, 1/3]]

/-- The inverted consumption surface of the X1 run. -/
def X1c : List (List ℚ) := [[1, 1/2], [2, 3/2]]

/-- The FOC_s surface of the X7 run. -/
def X7F : List (List ℚ) := [[0, 0], [0, 7], [0, 22]]

/-- The inverted consumption surface of the X7 run. -/
def X7c : List (List ℚ) := [[1/3, 1/6], [1/5, 1/14], [1/7, 1/22]]

/-- The general blending formula for the marginal value of resources (line
422) applied unconditionally, written from the spec sentence that the
AdjustPrb = 1 skip is an optimization and not a semantic change:
dvdm_next = AdjustPrb*dvdmAdj_next + (1-AdjustPrb)*dvdmFxd_next. -/
def dvdmNextBlend (rpw : ℚ → ℚ → ℚ) (I : SolveIn) (a s : ℚ) (t : ShockAtom) : Option ℚ :=
  let m := mNext I a s t
  match I.solution_next.vPfuncAdj.eval rpw m 0,
        I.solution_next.dvdmFuncFxd.eval rpw m s with
  | some dA, some dF => some (I.AdjustPrb * dA + (1 - I.AdjustPrb) * dF)
  | _, _ => none

/-- The general blending formula for the marginal value of share (line 430)
applied unconditionally: the adjusting realization is zero. -/
def dvdsNextBlend (rpw : ℚ → ℚ → ℚ) (I : SolveIn) (a s : ℚ) (t : ShockAtom) : Option ℚ :=
  let m := mNext I a s t
  match I.solution_next.dvdsFuncFxd.eval rpw m s with
  | some dF => some (I.AdjustPrb * 0 + (1 - I.AdjustPrb) * dF)
  | none => none

/-- The general blending formula for the value level (line 439) applied
unconditionally inside the vFuncBool branch. -/
def vNextBlend (rpw : ℚ → ℚ → ℚ) (I : SolveIn) (a s : ℚ) (t : ShockAtom) : Option ℚ :=
  let m := mNext I a s t
  if I.vFuncBool then
    match I.solution_next.vFuncAdj.eval rpw m 0,
          I.solution_next.vFuncFxd.eval rpw m s with
    | some vA, some vF => some (I.AdjustPrb * vA + (1 - I.AdjustPrb) * vF)
    | _, _ => none
  else some 0

/-- End-of-period marginal value of assets computed with the unconditional
blending formula. -/
def EndOfPrddvdaBlend (rpw : ℚ → ℚ → ℚ) (I : SolveIn) (a s : ℚ) : Option ℚ :=
  (expectSum (fun t => (dvdmNextBlend rpw I a s t).map
      fun dv => t.prb * RportOf I s t * tfA rpw I t * dv) I.shocks).map
    fun v => I.DiscFac * v

/-- End-of-period marginal value of share computed with the unconditional
blending formula. -/
def EndOfPrddvdsBlend (rpw : ℚ → ℚ → ℚ) (I : SolveIn) (a s : ℚ) : Option ℚ :=
  (expectSum (fun t =>
      match dvdmNextBlend rpw I a s t, dvdsNextBlend rpw I a s t with
      | some dm, some ds =>
          some (t.prb * ((RportOf I s t - I.Rfree) * a * tfA rpw I t * dm
                 + tfB rpw I t * ds))
      | _, _ => none) I.shocks).map
    fun v => I.DiscFac * v

/-- End-of-period value computed with the unconditional blending formula. -/
def EndOfPrdvBlend (rpw : ℚ → ℚ → ℚ) (I : SolveIn) (a s : ℚ) : Option ℚ :=
  (expectSum (fun t => (vNextBlend rpw I a s t).map
      fun v => t.prb * tfB rpw I t * v) I.shocks).map
    fun v => I.DiscFac * v

/- Constructor disequalities used when evaluating the diagnostic filter. -/

theorem presetNeFailure (s c : ℚ) : (LevelOut.preset s c = LevelOut.failure) = False := by
  simp

theorem nanNeFailure : (LevelOut.nanOut = LevelOut.failure) = False := by
  simp

theorem interiorNeFailure (s c : ℚ) : (LevelOut.interior s c = LevelOut.failure) = False := by
  simp

/- Concrete evaluations of the X1 run. -/

theorem X1F_eq : FOCmatOf ratPow X1 = some X1F := by
  norm_num [FOCmatOf, seqO, EndOfPrddvds, expectSum, dvdmNext, dvdsNext, mNext,
    RportOf, tfA, tfB, X1, X1F, solutionTerminal, PFunc.eval, utilityP, ratPow, aNrmGridOf]

theorem X1c_eq : cMatOf ratPow X1 = some X1c := by
  norm_num [cMatOf, seqO, EndOfPrddvdaNvrs, EndOfPrddvda, expectSum, dvdmNext, mNext,
    RportOf, tfA, X1, X1c, solutionTerminal, PFunc.eval, utilityP, ratPow, aNrmGridOf]

theorem X1v_eq : vMatOf ratPow X1 = some [[0, 0], [0, 0]] := by
  norm_num [vMatOf, seqO, EndOfPrdv, expectSum, vNext, mNext,
    RportOf, tfB, X1, solutionTerminal, PFunc.eval, utilityFn, ratPow, aNrmGridOf]

theorem X1solve_eq : solveConsPortfolio ratPow 0 X1 =
    .ok (buildSolution 0 1 (1/2) (ctxOf X1 X1F X1c), diagnosticsOf (ctxOf X1 X1F X1c)) := by
  unfold solveConsPortfolio
  rw [X1F_eq, X1c_eq, X1v_eq]
  norm_num [X1]
  intro h
  simp at h

/- Concrete evaluations of the X2 run. -/

theorem X2F_eq : FOCmatOf ratPow X2 = some X2F := by
  norm_num [FOCmatOf, seqO, EndOfPrddvds, expectSum, dvdmNext, dvdsNext, mNext,
    RportOf, tfA, tfB, X2, X2F, solutionTerminal, PFunc.eval, utilityP, ratPow, aNrmGridOf]

theorem X2c_eq : cMatOf ratPow X2 = some X2c := by
  norm_num [cMatOf, seqO, EndOfPrddvdaNvrs, EndOfPrddvda, expectSum, dvdmNext, mNext,
    RportOf, tfA, X2, X2c, solutionTerminal, PFunc.eval, utilityP, ratPow, aNrmGridOf]

theorem X2v_eq : vMatOf ratPow X2 = some [[0, 0], [0, 0]] := by
  norm_num [vMatOf, seqO, EndOfPrdv, expectSum, vNext, mNext,
    RportOf, tfB, X2, solutionTerminal, PFunc.eval, utilityFn, ratPow, aNrmGridOf]

theorem X2solve_eq : solveConsPortfolio ratPow 0 X2 =
    .ok (buildSolution 0 1 (1/3) (ctxOf X2 X2F X2c), diagnosticsOf (ctxOf X2 X2F X2c)) := by
  unfold solveConsPortfolio
  rw [X2F_eq, X2c_eq, X2v_eq]
  norm_num [X2]
  intro h
  simp at h

/- Concrete evaluations of the X3 run. -/

theorem X3F_eq : FOCmatOf ratPow X3 = some X3F := by
  norm_num [FOCmatOf, seqO, EndOfPrddvds, expectSum, dvdmNext, dvdsNext, mNext,
    RportOf, tfA, tfB, X3, X3F, solutionTerminal, PFunc.eval, utilityP, ratPow, aNrmGridOf]

theorem X3c_eq : cMatOf ratPow X3 = some X3c := by
  norm_num [cMatOf, seqO, EndOfPrddvdaNvrs, EndOfPrddvda, expectSum, dvdmNext, mNext,
    RportOf, tfA, X3, X3c, solutionTerminal, PFunc.eval, utilityP, ratPow, aNrmGridOf]

theorem X3v_eq : vMatOf ratPow X3 = some [[0, 0, 0], [0, 0, 0]] := by
  norm_num [vMatOf, seqO, EndOfPrdv, expectSum, vNext, mNext,
    RportOf, tfB, X3, solutionTerminal, PFunc.eval, utilityFn, ratPow, aNrmGridOf]

theorem X3solve_eq : solveConsPortfolio ratPow 0 X3 =
    .ok (buildSolution 0 1 (1/3) (ctxOf X3 X3F X3c), diagnosticsOf (ctxOf X3 X3F X3c)) := by
  unfold solveConsPortfolio
  rw [X3F_eq, X3c_eq, X3v_eq]
  norm_num [X3]
  intro h
  simp at h

/- Concrete evaluations of the X6 run. -/

theorem X6F_eq : FOCmatOf ratPow X6 = some X6F := by
  norm_num [FOCmatOf, seqO, EndOfPrddvds, expectSum, dvdmNext, dvdsNext, mNext,
    RportOf, tfA, tfB, X6, X6F, solutionTerminal, PFunc.eval, utilityP, ratPow, aNrmGridOf]

theorem X6c_eq : cMatOf ratPow X6 = some X6c := by
  norm_num [cMatOf, seqO, EndOfPrddvdaNvrs, EndOfPrddvda, expectSum, dvdmNext, mNext,
    RportOf, tfA, X6, X6c, solutionTerminal, PFunc.eval, utilityP, ratPow, aNrmGridOf]

theorem X6diag_eq : diagnosticsOf (ctxOf X6 X6F X6c) = [] := by
  norm_num [diagnosticsOf, levelOut, constrainedB, lastCrossing, crossingB, FOCget,
    cget, ctxOf, X6, X6F, X6c, aNrmGridOf, alphaOf, List.range_succ, List.filter_append,
    List.filterMap_cons, presetNeFailure, nanNeFailure, interiorNeFailure]

/- Concrete evaluations of the X7 run. -/

theorem X7F_eq : FOCmatOf ratPow X7 = some X7F := by
  norm_num [FOCmatOf, seqO, EndOfPrddvds, expectSum, dvdmNext, dvdsNext, mNext,
    RportOf, tfA, tfB, X7, X7F, nextX7, PFunc.eval, linearInterpEvalFn,
    linearInterpEvalRaw, interpSegs, lineThrough, utilityP, ratPow, aNrmGridOf]

theorem X7c_eq : cMatOf ratPow X7 = some X7c := by
  norm_num [cMatOf, seqO, EndOfPrddvdaNvrs, EndOfPrddvda, expectSum, dvdmNext, mNext,
    RportOf, tfA, X7, X7c, nextX7, PFunc.eval, linearInterpEvalFn,
    linearInterpEvalRaw, interpSegs, lineThrough, utilityP, ratPow, aNrmGridOf]

theorem X7v_eq : vMatOf ratPow X7 = some [[0, 0], [0, 0], [0, 0]] := by
  norm_num [vMatOf, seqO, EndOfPrdv, expectSum, vNext, mNext,
    RportOf, tfB, X7, nextX7, PFunc.eval, utilityFn, ratPow, aNrmGridOf]

theorem X7solve_eq : solveConsPortfolio ratPow 0 X7 =
    .ok (buildSolution 0 1 (1/2) (ctxOf X7 X7F X7c), diagnosticsOf (ctxOf X7 X7F X7c)) := by
  unfold solveConsPortfolio
  rw [X7F_eq, X7c_eq, X7v_eq]
  norm_num [X7]
  intro h
  simp at h

theorem X7cEval_lo : (buildSolution 0 1 (1/2) (ctxOf X7 X7F X7c)).cFuncAdj.eval ratPow (1/6) 0
    = some (1/6) := by
  norm_num [buildSolution, cFuncAdjOf, PFunc.eval, linearInterpEvalFn, linearInterpEvalRaw,
    mNrmAdjList, cNrmAdjList, cAdjVal, levelOut, constrainedB, lastCrossing, crossingB,
    FOCget, cget, ctxOf, X7, X7F, X7c, aNrmGridOf, alphaOf, List.range_succ,
    List.filter_append, interpSegs, lineThrough]

theorem X7cEval_hi : (buildSolution 0 1 (1/2) (ctxOf X7 X7F X7c)).cFuncAdj.eval ratPow (15/14) 0
    = some (1/14) := by
  norm_num [buildSolution, cFuncAdjOf, PFunc.eval, linearInterpEvalFn, linearInterpEvalRaw,
    mNrmAdjList, cNrmAdjList, cAdjVal, levelOut, constrainedB, lastCrossing, crossingB,
    FOCget, cget, ctxOf, X7, X7F, X7c, aNrmGridOf, alphaOf, List.range_succ,
    List.filter_append, interpSegs, lineThrough]
  simp

/-- C1: the source never passes vFuncAdj or vFuncFxd to the returned
PortfolioSolution, so with the value-function flag set the returned
value-function fields are still the NullFunc placeholders, contradicting
the claim (and the solver's own docstring); the marginal-value fields
vPfuncAdj, dvdmFuncFxd, dvdsFuncFxd are populated.  Evaluation of the code
at the failing input X1 (vFuncBool = true). -/
theorem C1_value_functions_never_populated :
    X1.vFuncBool = true ∧
    (solveConsPortfolio ratPow 0 X1).toOption.map
        (fun r => (r.1.vFuncAdj, r.1.vFuncFxd, r.1.vPfuncAdj.isNullFunc,
                   r.1.dvdmFuncFxd.isNullFunc, r.1.dvdsFuncFxd.isNullFunc))
      = some (.nullFunc, .nullFunc, false, false, false) := by
  refine ⟨rfl, ?_⟩
  rw [X1solve_eq]
  simp [buildSolution, PFunc.isNullFunc, Except.toOption]

/-- C5: the solver raises the borrowing-constraint input-contract error
exactly when the borrowing constraint differs from 0; the check is the
first statement of the function, before any computation. -/
theorem C5_boro_contract (rpw : ℚ → ℚ → ℚ) (nanQ : ℚ) (I : SolveIn) :
    solveConsPortfolio rpw nanQ I = .error .boroCnst ↔ I.BoroCnstArt ≠ 0 := by
  unfold solveConsPortfolio
  split_ifs with h1 h2
  · simp [h1]
  · simp [h1]
  · split <;> simp [h1]

/-- C6: with a point-mass risky return exactly equal to the risk-free
factor and AdjustPrb = 1 (input X6), the end-of-period marginal value of
share is 0 at every (asset, share) grid point and no bracketing failure is
reported (no diagnostic); but at each asset level a > 0 the selection
reaches a bracketing pair whose marginal values are both 0, so
alpha = 1 - 0/0 is the float NaN and the stored share is NaN rather than
some value in [0,1]. -/
theorem C6_zero_premium_nan :
    FOCmatOf ratPow X6 = some X6F ∧ X6F = [[0, 0, 0], [0, 0, 0], [0, 0, 0]] ∧
    diagnosticsOf (ctxOf X6 X6F X6c) = [] ∧
    levelOut (ctxOf X6 X6F X6c) 0 = .preset 1 1 ∧
    levelOut (ctxOf X6 X6F X6c) 1 = .nanOut ∧
    levelOut (ctxOf X6 X6F X6c) 2 = .nanOut := by
  refine ⟨X6F_eq, rfl, X6diag_eq, ?_, ?_, ?_⟩ <;>
  norm_num [levelOut, constrainedB, lastCrossing, crossingB, FOCget, cget, ctxOf,
    X6, X6F, X6c, aNrmGridOf, alphaOf, List.range_succ, List.filter_append]

/-- C7 counterexample: at the concrete input X7 the solver succeeds, yet
the returned adjusting consumption function is strictly decreasing between
the resource points 1/6 and 15/14 — it is not non-decreasing over its
domain. -/
theorem C7_counterexample_nonmonotone :
    (1/6 : ℚ) < 15/14 ∧ (1/14 : ℚ) < 1/6 ∧
    (solveConsPortfolio ratPow 0 X7).toOption.map
        (fun r => (r.1.cFuncAdj.eval ratPow (1/6) 0, r.1.cFuncAdj.eval ratPow (15/14) 0))
      = some (some (1/6), some (1/14)) := by
  refine ⟨by norm_num, by norm_num, ?_⟩
  rw [X7solve_eq]
  simp only [Except.toOption, Option.map_some']
  rw [X7cEval_lo, X7cEval_hi]

/-- C8: terminal-period solution.  For every m ≥ 0 the terminal adjusting
consumption function returns m, the terminal adjusting share function
returns 0, the terminal value function is the CRRA utility of that
consumption, the fixed-case share function is the identity on its share
argument, and the terminal marginal value of share is identically 0. -/
theorem C8_terminal_rule (rpw : ℚ → ℚ → ℚ) (k m s : ℚ) (_hm : 0 ≤ m) :
    (solutionTerminal k).cFuncAdj.eval rpw m 0 = some m ∧
    (solutionTerminal k).ShareFuncAdj.eval rpw m 0 = some 0 ∧
    (solutionTerminal k).vFuncAdj.eval rpw m 0 = some (utilityFn rpw k m) ∧
    (solutionTerminal k).ShareFuncFxd.eval rpw m s = some s ∧
    (solutionTerminal k).dvdsFuncFxd.eval rpw m s = some 0 := by
  refine ⟨rfl, rfl, rfl, ?_, rfl⟩
  simp [solutionTerminal, PFunc.eval]

/-- Witness for C8 at m = 5, s = 1/3, CRRA = 2. -/
theorem C8_terminal_rule_witness :
    (solutionTerminal 2).cFuncAdj.eval ratPow 5 0 = some 5 ∧
    (solutionTerminal 2).ShareFuncAdj.eval ratPow 5 0 = some 0 ∧
    (solutionTerminal 2).vFuncAdj.eval ratPow 5 0 = some (utilityFn ratPow 2 5) ∧
    (solutionTerminal 2).ShareFuncFxd.eval ratPow 5 (1/3) = some (1/3) ∧
    (solutionTerminal 2).dvdsFuncFxd.eval ratPow 5 (1/3) = some 0 :=
  C8_terminal_rule ratPow 2 5 (1/3) (by norm_num)

/- Shared helper lemmas. -/

/-- Inversion of a successful solver call: the returned solution and
diagnostics are exactly those built from the materialised surfaces. -/
theorem solve_ok_inv (rpw : ℚ → ℚ → ℚ) (nanQ : ℚ) (I : SolveIn)
    (sol : PortfolioSolution) (diags : List ℚ) (F c : List (List ℚ))
    (h : solveConsPortfolio rpw nanQ I = .ok (sol, diags))
    (hF : FOCmatOf rpw I = some F) (hc : cMatOf rpw I = some c) :
    sol = buildSolution nanQ I.CRRA I.ShareLimit (ctxOf I F c) ∧
    diags = diagnosticsOf (ctxOf I F c) := by
  unfold solveConsPortfolio at h
  rw [hF, hc] at h
  split_ifs at h
  cases hv : vMatOf rpw I with
  | none => rw [hv] at h; simp at h
  | some V =>
      rw [hv] at h
      simp only [Except.ok.injEq, Prod.mk.injEq] at h
      exact ⟨h.1.symm, h.2.symm⟩

/-- An in-range getD is a member of the list. -/
theorem getD_mem_of_lt {α : Type} (d : α) : ∀ (l : List α) (n : ℕ), n < l.length → l.getD n d ∈ l
  | a :: t, 0, _ => List.mem_cons_self a t
  | a :: t, n + 1, h =>
      List.mem_cons_of_mem a (getD_mem_of_lt d t n (by simpa using h))

/-- getLast? produces a member of the list. -/
theorem mem_of_getLastQ {α : Type} : ∀ {l : List α} {a : α}, l.getLast? = some a → a ∈ l
  | [], a, h => by simp [List.getLast?] at h
  | [x], a, h => by
      simp [List.getLast?] at h
      simp [h]
  | x :: y :: t, a, h => by
      rw [List.getLast?_cons_cons] at h
      exact List.mem_cons_of_mem _ (mem_of_getLastQ h)

/-- The last element of a filtered range is the largest index satisfying
the predicate. -/
theorem filter_range_getLast (P : ℕ → Bool) :
    ∀ (n : ℕ) (k : ℕ), k < n → P k = true → (∀ j, k < j → j < n → P j = false) →
      ((List.range n).filter P).getLast? = some k := by
  intro n
  induction n with
  | zero => intro k hk; omega
  | succ m ih =>
      intro k hk hP hup
      rw [List.range_succ, List.filter_append]
      by_cases hkm : k = m
      · subst hkm
        simp [List.filter_cons, hP, List.getLast?_append]
      · have hkm' : k < m := by omega
        have hm : P m = false := hup m hkm' (by omega)
        simp only [List.filter_cons, hm]
        simp only [Bool.false_eq_true, if_false, List.filter_nil, List.append_nil]
        exact ih k hkm' hP (fun j h1 h2 => hup j h1 (by omega))

/-- crossingB unfolded to its proposition. -/
theorem crossingB_iff (C : SelCtx) (j k : ℕ) :
    crossingB C j k = true ↔ (FOCget C j (k + 1) ≤ 0 ∧ 0 ≤ FOCget C j k) := by
  unfold crossingB
  split_ifs with h <;> simp [h]

/-- constrainedB unfolded to its proposition. -/
theorem constrainedB_iff (C : SelCtx) (j : ℕ) :
    constrainedB C j = true ↔ 0 < FOCget C j (C.S.length - 1) := by
  unfold constrainedB
  split_ifs with h <;> simp [h]

/-- If the bracketing characterization holds at k, lastCrossing returns k. -/
theorem lastCrossing_eq_some (C : SelCtx) (j k : ℕ) (hk : k + 1 < C.S.length)
    (hc : crossingB C j k = true)
    (hup : ∀ j', k < j' → j' + 1 < C.S.length → crossingB C j j' = false) :
    lastCrossing C j = some k := by
  unfold lastCrossing
  exact filter_range_getLast (crossingB C j) (C.S.length - 1) k (by omega) hc
    (fun j' h1 h2 => hup j' h1 (by omega))

/-- Conversely, a found lastCrossing index brackets and is in range. -/
theorem lastCrossing_spec (C : SelCtx) (j k : ℕ) (h : lastCrossing C j = some k) :
    crossingB C j k = true ∧ k + 1 < C.S.length := by
  unfold lastCrossing at h
  have hmem := mem_of_getLastQ h
  rw [List.mem_filter] at hmem
  refine ⟨hmem.2, ?_⟩
  have := List.mem_range.mp hmem.1
  omega

/- Inversion lemmas for the per-level outcome. -/

/-- The loop always assigns share 1 at level 0 (aNrm = 0). -/
theorem levelOut_zero (C : SelCtx) :
    levelOut C 0 = .preset 1 (cget C 0 (C.S.length - 1)) := by
  simp [levelOut]

/-- A share-constrained level is assigned share 1 and the top-column
consumption. -/
theorem levelOut_constrained (C : SelCtx) (j : ℕ) (hj : constrainedB C j = true) :
    levelOut C j = .preset 1 (cget C j (C.S.length - 1)) := by
  simp [levelOut, hj]

/-- An unconstrained positive level with a bracketing pair and a nonzero
denominator is interpolated. -/
theorem levelOut_interior (C : SelCtx) (j k : ℕ) (hj0 : j ≠ 0)
    (hnc : constrainedB C j = false) (hlast : lastCrossing C j = some k)
    (hne : FOCget C j (k + 1) - FOCget C j k ≠ 0) :
    levelOut C j =
      .interior ((1 - alphaOf C j k) * C.S.getD k 0 + alphaOf C j k * C.S.getD (k + 1) 0)
        ((1 - alphaOf C j k) * cget C j k + alphaOf C j k * cget C j (k + 1)) := by
  simp [levelOut, hj0, hnc, hlast, hne]

/-- An unconstrained positive level whose bracketing pair has a zero
denominator produces the NaN outcome. -/
theorem levelOut_nan (C : SelCtx) (j k : ℕ) (hj0 : j ≠ 0)
    (hnc : constrainedB C j = false) (hlast : lastCrossing C j = some k)
    (hz : FOCget C j (k + 1) - FOCget C j k = 0) :
    levelOut C j = .nanOut := by
  simp [levelOut, hj0, hnc, hlast, hz]

/-- An unconstrained positive level with no bracketing pair fails. -/
theorem levelOut_failure (C : SelCtx) (j : ℕ) (hj0 : j ≠ 0)
    (hnc : constrainedB C j = false) (hnone : lastCrossing C j = none) :
    levelOut C j = .failure := by
  simp [levelOut, hj0, hnc, hnone]

/-- A preset outcome always carries share 1. -/
theorem levelOut_preset_inv (C : SelCtx) (j : ℕ) (s c : ℚ)
    (h : levelOut C j = .preset s c) : s = 1 := by
  by_cases h1 : j = 0 ∨ constrainedB C j = true
  · have he : levelOut C j = .preset 1 (cget C j (C.S.length - 1)) := by
      unfold levelOut
      rw [if_pos h1]
    rw [he] at h
    injection h with hs _
    exact hs.symm
  · have hj0 : j ≠ 0 := fun hj => h1 (Or.inl hj)
    have hnc : constrainedB C j = false := by
      cases hb : constrainedB C j with
      | false => rfl
      | true => exact absurd (Or.inr hb) h1
    cases hl : lastCrossing C j with
    | none => rw [levelOut_failure C j hj0 hnc hl] at h; simp at h
    | some k =>
        by_cases h2 : FOCget C j (k + 1) - FOCget C j k = 0
        · rw [levelOut_nan C j k hj0 hnc hl h2] at h
          simp at h
        · rw [levelOut_interior C j k hj0 hnc hl h2] at h
          simp at h

/-- An interior outcome carries the interpolation formulas of some
bracketing index with nonzero denominator. -/
theorem levelOut_interior_inv (C : SelCtx) (j : ℕ) (s c : ℚ)
    (h : levelOut C j = .interior s c) :
    ∃ k, lastCrossing C j = some k ∧ FOCget C j (k + 1) - FOCget C j k ≠ 0 ∧
      s = (1 - alphaOf C j k) * C.S.getD k 0 + alphaOf C j k * C.S.getD (k + 1) 0 ∧
      c = (1 - alphaOf C j k) * cget C j k + alphaOf C j k * cget C j (k + 1) := by
  by_cases h1 : j = 0 ∨ constrainedB C j = true
  · have he : levelOut C j = .preset 1 (cget C j (C.S.length - 1)) := by
      unfold levelOut
      rw [if_pos h1]
    rw [he] at h
    simp at h
  · have hj0 : j ≠ 0 := fun hj => h1 (Or.inl hj)
    have hnc : constrainedB C j = false := by
      cases hb : constrainedB C j with
      | false => rfl
      | true => exact absurd (Or.inr hb) h1
    cases hl : lastCrossing C j with
    | none => rw [levelOut_failure C j hj0 hnc hl] at h; simp at h
    | some k =>
        by_cases h2 : FOCget C j (k + 1) - FOCget C j k = 0
        · rw [levelOut_nan C j k hj0 hnc hl h2] at h
          simp at h
        · rw [levelOut_interior C j k hj0 hnc hl h2] at h
          injection h with hs hc
          exact ⟨k, rfl, h2, hs.symm, hc.symm⟩

/-- C2: whenever a positive, unconstrained asset level has no sign-crossing
bracketing pair, the returned diagnostics of the solver call contain that
asset level's value: the defaults (share 0, consumption 0) stored at that
level are accompanied by the diagnostic, not substituted silently. -/
theorem C2_bracketing_failure_diagnosed (rpw : ℚ → ℚ → ℚ) (nanQ : ℚ) (I : SolveIn)
    (sol : PortfolioSolution) (diags : List ℚ) (F c : List (List ℚ)) (j : ℕ)
    (hsolve : solveConsPortfolio rpw nanQ I = .ok (sol, diags))
    (hF : FOCmatOf rpw I = some F) (hc : cMatOf rpw I = some c)
    (hj : j < (aNrmGridOf I).length) (hj0 : j ≠ 0)
    (hnc : constrainedB (ctxOf I F c) j = false)
    (hnone : lastCrossing (ctxOf I F c) j = none) :
    (aNrmGridOf I).getD j 0 ∈ diags ∧
    shareVal nanQ (ctxOf I F c) j = 0 ∧ cAdjVal nanQ (ctxOf I F c) j = 0 := by
  obtain ⟨hsol, hdiag⟩ := solve_ok_inv rpw nanQ I sol diags F c hsolve hF hc
  subst hdiag
  have hfail := levelOut_failure (ctxOf I F c) j hj0 hnc hnone
  refine ⟨?_, by simp [shareVal, hfail], by simp [cAdjVal, hfail]⟩
  unfold diagnosticsOf
  refine List.mem_filterMap.mpr ⟨j, List.mem_range.mpr hj, ?_⟩
  simp only [ctxOf] at hfail ⊢
  simp [hfail]

/-- Witness for C2 at the concrete input X2: the level a = 1 has no
bracketing pair and its asset value 1 appears in the diagnostics. -/
theorem C2_bracketing_failure_diagnosed_witness :
    (aNrmGridOf X2).getD 1 0 ∈ diagnosticsOf (ctxOf X2 X2F X2c) ∧
    shareVal 0 (ctxOf X2 X2F X2c) 1 = 0 ∧ cAdjVal 0 (ctxOf X2 X2F X2c) 1 = 0 :=
  C2_bracketing_failure_diagnosed ratPow 0 X2
    (buildSolution 0 1 (1/3) (ctxOf X2 X2F X2c)) (diagnosticsOf (ctxOf X2 X2F X2c))
    X2F X2c 1 X2solve_eq X2F_eq X2c_eq
    (by norm_num [aNrmGridOf, X2]) (by norm_num)
    (by norm_num [constrainedB, FOCget, ctxOf, X2, X2F])
    (by norm_num [lastCrossing, crossingB, FOCget, ctxOf, X2, X2F, List.range_succ,
      List.filter_append])

/-- The stored (share, consumption) pair of a preset level. -/
theorem sc_of_preset (nanQ : ℚ) (C : SelCtx) (j : ℕ) (s c : ℚ)
    (h : levelOut C j = .preset s c) :
    shareVal nanQ C j = s ∧ cAdjVal nanQ C j = c := by
  unfold shareVal cAdjVal
  rw [h]
  exact ⟨rfl, rfl⟩

/-- The stored (share, consumption) pair of an interpolated level. -/
theorem sc_of_interior (nanQ : ℚ) (C : SelCtx) (j : ℕ) (s c : ℚ)
    (h : levelOut C j = .interior s c) :
    shareVal nanQ C j = s ∧ cAdjVal nanQ C j = c := by
  unfold shareVal cAdjVal
  rw [h]
  exact ⟨rfl, rfl⟩

/-- C3: the per-asset share choice of the solver.  Anchored to a successful
call: the returned adjusting share function is built from the per-level
selections, and (i) a level whose marginal value of share is strictly
positive at the top grid share gets share exactly 1 with consumption read
from the top-share column of the inverted surface, (ii) level 0 (a = 0)
gets share 1 with consumption from the top-share column, and (iii) an
unconstrained positive level whose highest bracketing pair (k, k+1) — FOC
nonnegative below, nonpositive above, with nonvanishing difference — is
interpolated linearly in both share and consumption by the zero-crossing
fraction alpha. -/
theorem C3_share_choice_program (rpw : ℚ → ℚ → ℚ) (nanQ : ℚ) (I : SolveIn)
    (sol : PortfolioSolution) (diags : List ℚ) (F c : List (List ℚ))
    (hsolve : solveConsPortfolio rpw nanQ I = .ok (sol, diags))
    (hF : FOCmatOf rpw I = some F) (hc : cMatOf rpw I = some c) :
    sol.ShareFuncAdj = .linearInterp (mNrmAdjList nanQ (ctxOf I F c))
        (shareListOf nanQ (ctxOf I F c)) (some (I.ShareLimit, 0)) ∧
    (∀ j, constrainedB (ctxOf I F c) j = true →
        shareVal nanQ (ctxOf I F c) j = 1 ∧
        cAdjVal nanQ (ctxOf I F c) j = cget (ctxOf I F c) j (I.ShareGrid.length - 1)) ∧
    (shareVal nanQ (ctxOf I F c) 0 = 1 ∧
     cAdjVal nanQ (ctxOf I F c) 0 = cget (ctxOf I F c) 0 (I.ShareGrid.length - 1)) ∧
    (∀ j k, j ≠ 0 → constrainedB (ctxOf I F c) j = false →
        crossingB (ctxOf I F c) j k = true →
        (∀ k', k < k' → k' + 1 < I.ShareGrid.length → crossingB (ctxOf I F c) j k' = false) →
        k + 1 < I.ShareGrid.length →
        FOCget (ctxOf I F c) j (k + 1) - FOCget (ctxOf I F c) j k ≠ 0 →
        shareVal nanQ (ctxOf I F c) j =
          (1 - alphaOf (ctxOf I F c) j k) * I.ShareGrid.getD k 0
            + alphaOf (ctxOf I F c) j k * I.ShareGrid.getD (k + 1) 0 ∧
        cAdjVal nanQ (ctxOf I F c) j =
          (1 - alphaOf (ctxOf I F c) j k) * cget (ctxOf I F c) j k
            + alphaOf (ctxOf I F c) j k * cget (ctxOf I F c) j (k + 1)) := by
  obtain ⟨hsol, hdiag⟩ := solve_ok_inv rpw nanQ I sol diags F c hsolve hF hc
  refine ⟨by rw [hsol]; rfl, ?_, ?_, ?_⟩
  · intro j hcons
    exact sc_of_preset nanQ (ctxOf I F c) j _ _ (levelOut_constrained (ctxOf I F c) j hcons)
  · exact sc_of_preset nanQ (ctxOf I F c) 0 _ _ (levelOut_zero (ctxOf I F c))
  · intro j k hj0 hnc hcr hup hk hne
    have hlast : lastCrossing (ctxOf I F c) j = some k :=
      lastCrossing_eq_some (ctxOf I F c) j k hk hcr hup
    exact sc_of_interior nanQ (ctxOf I F c) j _ _
      (levelOut_interior (ctxOf I F c) j k hj0 hnc hlast hne)

/-- Witness for C3 at the concrete input X3: the level a = 1 is
unconstrained, its highest bracketing pair is (1, 2), and the interpolated
share and consumption follow the zero-crossing formulas. -/
theorem C3_share_choice_program_witness :
    shareVal 0 (ctxOf X3 X3F X3c) 1 =
      (1 - alphaOf (ctxOf X3 X3F X3c) 1 1) * X3.ShareGrid.getD 1 0
        + alphaOf (ctxOf X3 X3F X3c) 1 1 * X3.ShareGrid.getD 2 0 ∧
    cAdjVal 0 (ctxOf X3 X3F X3c) 1 =
      (1 - alphaOf (ctxOf X3 X3F X3c) 1 1) * cget (ctxOf X3 X3F X3c) 1 1
        + alphaOf (ctxOf X3 X3F X3c) 1 1 * cget (ctxOf X3 X3F X3c) 1 2 :=
  (C3_share_choice_program ratPow 0 X3
    (buildSolution 0 1 (1/3) (ctxOf X3 X3F X3c)) (diagnosticsOf (ctxOf X3 X3F X3c))
    X3F X3c X3solve_eq X3F_eq X3c_eq).2.2.2 1 1
    (by norm_num)
    (by norm_num [constrainedB, FOCget, ctxOf, X3, X3F])
    (by norm_num [crossingB, FOCget, ctxOf, X3, X3F])
    (by intro k' h1 h2; simp [X3] at h2; omega)
    (by norm_num [X3])
    (by norm_num [FOCget, ctxOf, X3, X3F])

/- Lemmas about the piecewise-linear interpolant. -/

/-- A linear segment with nonnegative slope is monotone. -/
theorem lineThrough_mono (p q : ℚ × ℚ) (h1 : p.1 < q.1) (h2 : p.2 ≤ q.2)
    {x y : ℚ} (hxy : x ≤ y) : lineThrough p q x ≤ lineThrough p q y := by
  unfold lineThrough
  have hd : 0 < q.1 - p.1 := by linarith
  have hr : (x - p.1) / (q.1 - p.1) ≤ (y - p.1) / (q.1 - p.1) :=
    (div_le_div_right hd).mpr (by linarith)
  have := mul_le_mul_of_nonneg_left hr (by linarith : (0:ℚ) ≤ q.2 - p.2)
  linarith

/-- Right of the left knot, a rising segment is at least its left value. -/
theorem lineThrough_ge_left (p q : ℚ × ℚ) (h1 : p.1 < q.1) (h2 : p.2 ≤ q.2)
    {x : ℚ} (hx : p.1 ≤ x) : p.2 ≤ lineThrough p q x := by
  unfold lineThrough
  have hd : 0 < q.1 - p.1 := by linarith
  have hr : 0 ≤ (x - p.1) / (q.1 - p.1) := div_nonneg (by linarith) (by linarith)
  nlinarith

/-- Left of the right knot, a rising segment is at most its right value. -/
theorem lineThrough_le_right (p q : ℚ × ℚ) (h1 : p.1 < q.1) (h2 : p.2 ≤ q.2)
    {x : ℚ} (hx : x ≤ q.1) : lineThrough p q x ≤ q.2 := by
  unfold lineThrough
  have hd : 0 < q.1 - p.1 := by linarith
  have hr : (x - p.1) / (q.1 - p.1) ≤ 1 := by
    rw [div_le_one hd]
    linarith
  nlinarith

/-- Zipping preserves chains componentwise. -/
theorem chainZip {r1 r2 : ℚ → ℚ → Prop} :
    ∀ (xs ys : List ℚ), List.Chain' r1 xs → List.Chain' r2 ys →
      List.Chain' (fun u v : ℚ × ℚ => r1 u.1 v.1 ∧ r2 u.2 v.2) (xs.zip ys)
  | [], _, _, _ => by simp
  | _ :: _, [], _, _ => by simp
  | x :: xt, y :: yt, hx, hy => by
      rw [List.zip_cons_cons]
      match xt, yt with
      | [], _ => simp
      | _ :: _, [] => simp
      | x2 :: xt2, y2 :: yt2 =>
          rw [List.zip_cons_cons]
          refine List.Chain'.cons ⟨(List.chain'_cons.mp hx).1, (List.chain'_cons.mp hy).1⟩ ?_
          have := chainZip (x2 :: xt2) (y2 :: yt2)
            (List.chain'_cons.mp hx).2 (List.chain'_cons.mp hy).2
          rwa [List.zip_cons_cons] at this

/-- Right of a knot, a sorted nondecreasing interpolant is at least that
knot's value. -/
theorem interpSegs_ge (q : ℚ × ℚ) (l : List (ℚ × ℚ))
    (h : List.Chain' (fun u v : ℚ × ℚ => u.1 < v.1 ∧ u.2 ≤ v.2) (q :: l)) :
    ∀ x, q.1 ≤ x → q.2 ≤ interpSegs q l x := by
  induction l generalizing q with
  | nil =>
      intro x hx
      simp [interpSegs]
  | cons r t ih =>
      intro x hx
      have hqr := (List.chain'_cons.mp h).1
      simp only [interpSegs]
      by_cases h1 : x ≤ q.1
      · rw [if_pos h1]
      · rw [if_neg h1]
        by_cases h2 : t = [] ∨ x ≤ r.1
        · rw [if_pos h2]
          exact lineThrough_ge_left q r hqr.1 hqr.2 hx
        · rw [if_neg h2]
          push_neg at h2
          exact le_trans hqr.2
            (ih r (List.chain'_cons.mp h).2 x (le_of_lt h2.2))

/-- A piecewise-linear interpolant over strictly increasing knots with
nondecreasing values is monotone. -/
theorem interpSegs_mono (p : ℚ × ℚ) (l : List (ℚ × ℚ))
    (h : List.Chain' (fun u v : ℚ × ℚ => u.1 < v.1 ∧ u.2 ≤ v.2) (p :: l)) :
    ∀ x y, x ≤ y → interpSegs p l x ≤ interpSegs p l y := by
  induction l generalizing p with
  | nil =>
      intro x y _
      simp [interpSegs]
  | cons q t ih =>
      intro x y hxy
      have hpq := (List.chain'_cons.mp h).1
      have htail := (List.chain'_cons.mp h).2
      simp only [interpSegs]
      by_cases hy1 : y ≤ p.1
      · rw [if_pos (le_trans hxy hy1), if_pos hy1]
      · rw [if_neg hy1]
        by_cases hx1 : x ≤ p.1
        · rw [if_pos hx1]
          by_cases h2 : t = [] ∨ y ≤ q.1
          · rw [if_pos h2]
            exact lineThrough_ge_left p q hpq.1 hpq.2 (le_of_not_le hy1)
          · rw [if_neg h2]
            push_neg at h2
            exact le_trans hpq.2 (interpSegs_ge q t htail y (le_of_lt h2.2))
        · rw [if_neg hx1]
          by_cases h2y : t = [] ∨ y ≤ q.1
          · have h2x : t = [] ∨ x ≤ q.1 := by
              rcases h2y with hnil | hle
              · exact Or.inl hnil
              · exact Or.inr (le_trans hxy hle)
            rw [if_pos h2x, if_pos h2y]
            exact lineThrough_mono p q hpq.1 hpq.2 hxy
          · rw [if_neg h2y]
            push_neg at h2y
            by_cases h2x : x ≤ q.1
            · rw [if_pos (Or.inr h2x)]
              exact le_trans (lineThrough_le_right p q hpq.1 hpq.2 h2x)
                (interpSegs_ge q t htail y (le_of_lt h2y.2))
            · rw [if_neg (by push_neg; exact ⟨h2y.1, lt_of_not_le h2x⟩)]
              exact ih q htail x y hxy

/-- Monotonicity of the raw interpolant over parallel lists. -/
theorem linearInterpEvalRaw_mono (xs ys : List ℚ)
    (hx : List.Chain' (· < ·) xs) (hy : List.Chain' (· ≤ ·) ys) :
    ∀ x y, x ≤ y → linearInterpEvalRaw xs ys x ≤ linearInterpEvalRaw xs ys y := by
  intro x y hxy
  unfold linearInterpEvalRaw
  have hz := chainZip xs ys hx hy
  cases hzip : xs.zip ys with
  | nil => simp only [hzip]; exact le_refl 0
  | cons p rest =>
      rw [hzip] at hz
      simp only [hzip]
      exact interpSegs_mono p rest hz x y hxy

/-- At or below the first knot the raw interpolant returns the first
value. -/
theorem raw_at_first (x0 y0 : ℚ) (xs ys : List ℚ) (x : ℚ) (hx : x ≤ x0) :
    linearInterpEvalRaw (x0 :: xs) (y0 :: ys) x = y0 := by
  unfold linearInterpEvalRaw
  rw [List.zip_cons_cons]
  cases hz : xs.zip ys with
  | nil => simp [hz, interpSegs]
  | cons q t => simp [hz, interpSegs, hx]

/-- The adjusting consumption function of a built solution returns 0 at
m = 0 (the prepended degenerate point). -/
theorem buildSolution_cFuncAdj_at0 (rpw : ℚ → ℚ → ℚ) (nanQ crra sl : ℚ) (C : SelCtx) :
    (buildSolution nanQ crra sl C).cFuncAdj.eval rpw 0 0 = some 0 := by
  show some (linearInterpEvalFn (mNrmAdjList nanQ C) (cNrmAdjList nanQ C) none 0) = some 0
  unfold linearInterpEvalFn mNrmAdjList cNrmAdjList
  rw [raw_at_first 0 0 _ _ 0 (le_refl 0)]

/-- The adjusting share function of a built solution returns 1 at m = 0,
provided the grid's last resource point is nonnegative (so the
extrapolation branch is not taken at 0). -/
theorem buildSolution_ShareFuncAdj_at0 (rpw : ℚ → ℚ → ℚ) (nanQ crra sl : ℚ) (C : SelCtx)
    (hlast : 0 ≤ (mNrmAdjList nanQ C).getLastD 0) :
    (buildSolution nanQ crra sl C).ShareFuncAdj.eval rpw 0 0 = some 1 := by
  show some (if (mNrmAdjList nanQ C).getLastD 0 < 0 then sl + 0 * 0
             else linearInterpEvalRaw (mNrmAdjList nanQ C) (shareListOf nanQ C) 0) = some 1
  rw [if_neg (by linarith)]
  unfold mNrmAdjList shareListOf
  rw [raw_at_first 0 1 _ _ 0 (le_refl 0)]

/-- Beyond the last resource grid point, the adjusting share function of a
built solution evaluates on the limiting line: slope 0 and intercept equal
to the asymptotic share limit. -/
theorem buildSolution_ShareFuncAdj_beyond (rpw : ℚ → ℚ → ℚ) (nanQ crra sl : ℚ) (C : SelCtx)
    (x : ℚ) (hx : (mNrmAdjList nanQ C).getLastD 0 < x) :
    (buildSolution nanQ crra sl C).ShareFuncAdj.eval rpw x 0 = some sl := by
  show some (if (mNrmAdjList nanQ C).getLastD 0 < x then sl + 0 * x
             else linearInterpEvalRaw (mNrmAdjList nanQ C) (shareListOf nanQ C) x) = some sl
  rw [if_pos hx]
  norm_num

/-- C4: the adjusting-case interpolation grids and boundary behavior.  On a
successful call, the consumption function's knots are the endogenous grid
m = a + c(a) with the degenerate point (0, 0) prepended and the share
function carries (0, 1) with limit (ShareLimit, slope 0); consumption at
m = 0 is 0, share at m = 0 is 1, and beyond the last resource knot the
share function returns exactly the asymptotic limit. -/
theorem C4_adjusting_construction (rpw : ℚ → ℚ → ℚ) (nanQ : ℚ) (I : SolveIn)
    (sol : PortfolioSolution) (diags : List ℚ) (F c : List (List ℚ))
    (hsolve : solveConsPortfolio rpw nanQ I = .ok (sol, diags))
    (hF : FOCmatOf rpw I = some F) (hc : cMatOf rpw I = some c)
    (hlast : 0 ≤ (mNrmAdjList nanQ (ctxOf I F c)).getLastD 0) :
    sol.cFuncAdj =
      .linearInterp (mNrmAdjList nanQ (ctxOf I F c)) (cNrmAdjList nanQ (ctxOf I F c)) none ∧
    sol.ShareFuncAdj =
      .linearInterp (mNrmAdjList nanQ (ctxOf I F c)) (shareListOf nanQ (ctxOf I F c))
        (some (I.ShareLimit, 0)) ∧
    mNrmAdjList nanQ (ctxOf I F c) =
      0 :: (List.range (aNrmGridOf I).length).map
        (fun j => (aNrmGridOf I).getD j 0 + cAdjVal nanQ (ctxOf I F c) j) ∧
    cNrmAdjList nanQ (ctxOf I F c) =
      0 :: (List.range (aNrmGridOf I).length).map (cAdjVal nanQ (ctxOf I F c)) ∧
    shareListOf nanQ (ctxOf I F c) =
      1 :: (List.range (aNrmGridOf I).length).map (shareVal nanQ (ctxOf I F c)) ∧
    sol.cFuncAdj.eval rpw 0 0 = some 0 ∧
    sol.ShareFuncAdj.eval rpw 0 0 = some 1 ∧
    (∀ x, (mNrmAdjList nanQ (ctxOf I F c)).getLastD 0 < x →
      sol.ShareFuncAdj.eval rpw x 0 = some I.ShareLimit) := by
  obtain ⟨hsol, hdiag⟩ := solve_ok_inv rpw nanQ I sol diags F c hsolve hF hc
  subst hsol
  refine ⟨rfl, rfl, rfl, rfl, rfl, ?_, ?_, ?_⟩
  · exact buildSolution_cFuncAdj_at0 rpw nanQ I.CRRA I.ShareLimit (ctxOf I F c)
  · exact buildSolution_ShareFuncAdj_at0 rpw nanQ I.CRRA I.ShareLimit (ctxOf I F c) hlast
  · intro x hx
    exact buildSolution_ShareFuncAdj_beyond rpw nanQ I.CRRA I.ShareLimit (ctxOf I F c) x hx

/-- The endogenous resource grid of the X3 run. -/
theorem X3m_eq : mNrmAdjList 0 (ctxOf X3 X3F X3c) = [0, 2/3, 3] := by
  norm_num [mNrmAdjList, cAdjVal, levelOut, constrainedB, lastCrossing, crossingB,
    FOCget, cget, ctxOf, X3, X3F, X3c, aNrmGridOf, alphaOf, List.range_succ,
    List.filter_append]

/-- Witness for C4 at the concrete input X3: consumption 0 and share 1 at
m = 0, and share equal to the limit 1/3 at the out-of-grid point m = 4. -/
theorem C4_adjusting_construction_witness :
    (buildSolution 0 1 (1/3) (ctxOf X3 X3F X3c)).cFuncAdj.eval ratPow 0 0 = some 0 ∧
    (buildSolution 0 1 (1/3) (ctxOf X3 X3F X3c)).ShareFuncAdj.eval ratPow 0 0 = some 1 ∧
    (buildSolution 0 1 (1/3) (ctxOf X3 X3F X3c)).ShareFuncAdj.eval ratPow 4 0
      = some X3.ShareLimit := by
  have h := C4_adjusting_construction ratPow 0 X3
    (buildSolution 0 1 (1/3) (ctxOf X3 X3F X3c)) (diagnosticsOf (ctxOf X3 X3F X3c))
    X3F X3c X3solve_eq X3F_eq X3c_eq (by rw [X3m_eq]; norm_num)
  exact ⟨h.2.2.2.2.2.1, h.2.2.2.2.2.2.1,
    h.2.2.2.2.2.2.2 4 (by rw [X3m_eq]; norm_num)⟩

/-- The zero-crossing fraction lies in [0,1] whenever the pair brackets
(lower FOC nonnegative, upper nonpositive) with nonvanishing difference. -/
theorem alphaOf_mem_unit (C : SelCtx) (j k : ℕ)
    (hcr : crossingB C j k = true)
    (hne : FOCget C j (k + 1) - FOCget C j k ≠ 0) :
    0 ≤ alphaOf C j k ∧ alphaOf C j k ≤ 1 := by
  obtain ⟨ht, hb⟩ := (crossingB_iff C j k).mp hcr
  unfold alphaOf
  set t := FOCget C j (k + 1) with htdef
  set b := FOCget C j k with hbdef
  have hd : t - b < 0 := lt_of_le_of_ne (by linarith) hne
  have h1 : t / (t - b) = (-t) / (b - t) := by
    rw [div_eq_div_iff (by linarith) (by linarith)]
    ring
  have h2 : 0 ≤ (-t) / (b - t) := div_nonneg (by linarith) (by linarith)
  have h3 : (-t) / (b - t) ≤ 1 := by
    rw [div_le_one (by linarith)]
    linarith
  rw [h1]
  constructor <;> linarith

/-- Every stored share value lies in [0,1], provided the share grid's
values do and the level did not hit the 0/0 NaN case. -/
theorem shareVal_mem_unit (nanQ : ℚ) (C : SelCtx) (j : ℕ)
    (hS : ∀ s ∈ C.S, 0 ≤ s ∧ s ≤ 1)
    (hnn : levelOut C j ≠ .nanOut) :
    0 ≤ shareVal nanQ C j ∧ shareVal nanQ C j ≤ 1 := by
  cases h : levelOut C j with
  | preset s c =>
      have hs := levelOut_preset_inv C j s c h
      rw [(sc_of_preset nanQ C j s c h).1, hs]
      norm_num
  | interior s c =>
      obtain ⟨k, hl, hne, hsf, _⟩ := levelOut_interior_inv C j s c h
      have hspec := lastCrossing_spec C j k hl
      have hab := alphaOf_mem_unit C j k hspec.1 hne
      have hSk := hS _ (getD_mem_of_lt 0 C.S k (by omega))
      have hSk1 := hS _ (getD_mem_of_lt 0 C.S (k + 1) hspec.2)
      rw [(sc_of_interior nanQ C j s c h).1, hsf]
      constructor
      · have e1 := mul_nonneg (by linarith [hab.2] : (0:ℚ) ≤ 1 - alphaOf C j k) hSk.1
        have e2 := mul_nonneg hab.1 hSk1.1
        linarith
      · have e1 := mul_le_mul_of_nonneg_left hSk.2
          (by linarith [hab.2] : (0:ℚ) ≤ 1 - alphaOf C j k)
        have e2 := mul_le_mul_of_nonneg_left hSk1.2 hab.1
        linarith
  | nanOut => exact absurd h hnn
  | failure =>
      have hz : shareVal nanQ C j = 0 := by
        unfold shareVal
        rw [h]
      rw [hz]
      norm_num

/-- C7 (amended): on a successful call, every grid-derived value of the
adjusting share function lies in [0,1] provided the share grid's values do
and no asset level hit the 0/0 NaN degeneracy; and the adjusting
consumption function (whose knots are exactly the returned grids) is
non-decreasing whenever its resource knots are strictly increasing and its
consumption values are non-decreasing.  (As stated, the original claim
fails: see the counterexample.) -/
theorem C7_amended_invariants (rpw : ℚ → ℚ → ℚ) (nanQ : ℚ) (I : SolveIn)
    (sol : PortfolioSolution) (diags : List ℚ) (F c : List (List ℚ))
    (hsolve : solveConsPortfolio rpw nanQ I = .ok (sol, diags))
    (hF : FOCmatOf rpw I = some F) (hc : cMatOf rpw I = some c)
    (hSG : ∀ s ∈ I.ShareGrid, 0 ≤ s ∧ s ≤ 1)
    (hnn : ∀ j, j < (aNrmGridOf I).length → levelOut (ctxOf I F c) j ≠ .nanOut) :
    (∀ y ∈ shareListOf nanQ (ctxOf I F c), 0 ≤ y ∧ y ≤ 1) ∧
    sol.cFuncAdj =
      .linearInterp (mNrmAdjList nanQ (ctxOf I F c)) (cNrmAdjList nanQ (ctxOf I F c)) none ∧
    (List.Chain' (· < ·) (mNrmAdjList nanQ (ctxOf I F c)) →
     List.Chain' (· ≤ ·) (cNrmAdjList nanQ (ctxOf I F c)) →
     ∀ x y, x ≤ y →
       linearInterpEvalFn (mNrmAdjList nanQ (ctxOf I F c)) (cNrmAdjList nanQ (ctxOf I F c)) none x
         ≤ linearInterpEvalFn (mNrmAdjList nanQ (ctxOf I F c)) (cNrmAdjList nanQ (ctxOf I F c))
             none y) := by
  obtain ⟨hsol, hdiag⟩ := solve_ok_inv rpw nanQ I sol diags F c hsolve hF hc
  refine ⟨?_, by rw [hsol]; rfl, ?_⟩
  · intro y hy
    unfold shareListOf at hy
    rcases List.mem_cons.mp hy with h | h
    · rw [h]
      norm_num
    · obtain ⟨j, hj, hyv⟩ := List.mem_map.mp h
      rw [← hyv]
      exact shareVal_mem_unit nanQ (ctxOf I F c) j hSG
        (hnn j (List.mem_range.mp hj))
  · intro hcx hcy x y hxy
    exact linearInterpEvalRaw_mono _ _ hcx hcy x y hxy

/-- The endogenous resource grid of the X1 run. -/
theorem X1m_eq : mNrmAdjList 0 (ctxOf X1 X1F X1c) = [0, 1/2, 5/2] := by
  norm_num [mNrmAdjList, cAdjVal, levelOut, constrainedB, lastCrossing, crossingB,
    FOCget, cget, ctxOf, X1, X1F, X1c, aNrmGridOf, alphaOf, List.range_succ,
    List.filter_append]

/-- The consumption grid of the X1 run. -/
theorem X1cadj_eq : cNrmAdjList 0 (ctxOf X1 X1F X1c) = [0, 1/2, 3/2] := by
  norm_num [cNrmAdjList, cAdjVal, levelOut, constrainedB, lastCrossing, crossingB,
    FOCget, cget, ctxOf, X1, X1F, X1c, aNrmGridOf, alphaOf, List.range_succ,
    List.filter_append]

/-- Witness for the amended C7 at the concrete input X1: the stored share
at level 1 lies in [0,1], and the adjusting consumption interpolant is
monotone between the resource points 1 and 2. -/
theorem C7_amended_invariants_witness :
    (0 ≤ shareVal 0 (ctxOf X1 X1F X1c) 1 ∧ shareVal 0 (ctxOf X1 X1F X1c) 1 ≤ 1) ∧
    linearInterpEvalFn (mNrmAdjList 0 (ctxOf X1 X1F X1c)) (cNrmAdjList 0 (ctxOf X1 X1F X1c))
        none 1
      ≤ linearInterpEvalFn (mNrmAdjList 0 (ctxOf X1 X1F X1c)) (cNrmAdjList 0 (ctxOf X1 X1F X1c))
          none 2 := by
  have h := C7_amended_invariants ratPow 0 X1 (buildSolution 0 1 (1/2) (ctxOf X1 X1F X1c))
    (diagnosticsOf (ctxOf X1 X1F X1c)) X1F X1c X1solve_eq X1F_eq X1c_eq
    (by intro s hs
        simp [X1] at hs
        rcases hs with h | h <;> rw [h] <;> norm_num)
    (by intro j hj
        simp [aNrmGridOf, X1] at hj
        interval_cases j
        · rw [levelOut_zero]
          simp
        · rw [levelOut_constrained (ctxOf X1 X1F X1c) 1
            (by norm_num [constrainedB, FOCget, ctxOf, X1, X1F])]
          simp)
  refine ⟨h.1 (shareVal 0 (ctxOf X1 X1F X1c) 1) ?_, ?_⟩
  · unfold shareListOf
    refine List.mem_cons_of_mem _ (List.mem_map.mpr ⟨1, ?_, rfl⟩)
    simp [ctxOf, aNrmGridOf, X1]
  · exact h.2.2
      (by rw [X1m_eq]; norm_num [List.chain'_cons, List.chain'_singleton])
      (by rw [X1cadj_eq]; norm_num [List.chain'_cons, List.chain'_singleton])
      1 2 (by norm_num)

/- Per-realization equivalence of the AdjustPrb = 1 skip with the general
blending formula, and its lift through the expectation step. -/

/-- expectSum respects pointwise-equal integrands. -/
theorem expectSum_congr (f g : ShockAtom → Option ℚ) :
    ∀ (l : List ShockAtom), (∀ t ∈ l, f t = g t) → expectSum f l = expectSum g l
  | [], _ => rfl
  | t :: rest, h => by
      unfold expectSum
      rw [h t (List.mem_cons_self t rest),
        expectSum_congr f g rest (fun u hu => h u (List.mem_cons_of_mem t hu))]

/-- With AdjustPrb = 1 and an evaluable fixed marginal-value function, the
skip branch equals the blend. -/
theorem dvdmNext_eq_blend (rpw : ℚ → ℚ → ℚ) (I : SolveIn) (a s : ℚ) (t : ShockAtom)
    (h1 : I.AdjustPrb = 1)
    (hdF : (I.solution_next.dvdmFuncFxd.eval rpw (mNext I a s t) s).isSome = true) :
    dvdmNext rpw I a s t = dvdmNextBlend rpw I a s t := by
  simp only [dvdmNext, dvdmNextBlend]
  rw [h1]
  rw [if_neg (by norm_num : ¬(1:ℚ) < 1)]
  obtain ⟨dF, hdF'⟩ := Option.isSome_iff_exists.mp hdF
  rw [hdF']
  cases hA : I.solution_next.vPfuncAdj.eval rpw (mNext I a s t) 0 with
  | none => rfl
  | some dA => norm_num

/-- With AdjustPrb = 1 and an evaluable fixed marginal-value-of-share
function, the skip branch equals the blend. -/
theorem dvdsNext_eq_blend (rpw : ℚ → ℚ → ℚ) (I : SolveIn) (a s : ℚ) (t : ShockAtom)
    (h1 : I.AdjustPrb = 1)
    (hdF : (I.solution_next.dvdsFuncFxd.eval rpw (mNext I a s t) s).isSome = true) :
    dvdsNext rpw I a s t = dvdsNextBlend rpw I a s t := by
  simp only [dvdsNext, dvdsNextBlend]
  rw [h1]
  rw [if_neg (by norm_num : ¬(1:ℚ) < 1)]
  obtain ⟨dF, hdF'⟩ := Option.isSome_iff_exists.mp hdF
  rw [hdF']
  norm_num

/-- With AdjustPrb = 1 and an evaluable fixed value function, the skip
branch equals the blend. -/
theorem vNext_eq_blend (rpw : ℚ → ℚ → ℚ) (I : SolveIn) (a s : ℚ) (t : ShockAtom)
    (h1 : I.AdjustPrb = 1)
    (hvF : (I.solution_next.vFuncFxd.eval rpw (mNext I a s t) s).isSome = true) :
    vNext rpw I a s t = vNextBlend rpw I a s t := by
  simp only [vNext, vNextBlend]
  cases hb : I.vFuncBool with
  | false => simp
  | true =>
      simp only [if_true]
      rw [h1]
      rw [if_neg (by norm_num : ¬(1:ℚ) < 1)]
      obtain ⟨vF, hvF'⟩ := Option.isSome_iff_exists.mp hvF
      rw [hvF']
      cases hA : I.solution_next.vFuncAdj.eval rpw (mNext I a s t) 0 with
      | none => rfl
      | some vA => norm_num

/-- C9: when AdjustPrb = 1, the branch that skips evaluating the fixed-case
next-period functions produces the same expected marginal value of
resources, expected marginal value of share, and expected value as the
general blending formula AdjustPrb*adjusting + (1-AdjustPrb)*fixed would,
whenever the fixed-case functions are evaluable at the realized states. -/
theorem C9_adjust_skip_equivalent (rpw : ℚ → ℚ → ℚ) (I : SolveIn) (a s : ℚ)
    (h1 : I.AdjustPrb = 1)
    (hdm : ∀ t ∈ I.shocks,
      (I.solution_next.dvdmFuncFxd.eval rpw (mNext I a s t) s).isSome = true)
    (hds : ∀ t ∈ I.shocks,
      (I.solution_next.dvdsFuncFxd.eval rpw (mNext I a s t) s).isSome = true)
    (hv : ∀ t ∈ I.shocks,
      (I.solution_next.vFuncFxd.eval rpw (mNext I a s t) s).isSome = true) :
    EndOfPrddvda rpw I a s = EndOfPrddvdaBlend rpw I a s ∧
    EndOfPrddvds rpw I a s = EndOfPrddvdsBlend rpw I a s ∧
    EndOfPrdv rpw I a s = EndOfPrdvBlend rpw I a s := by
  refine ⟨?_, ?_, ?_⟩
  · unfold EndOfPrddvda EndOfPrddvdaBlend
    rw [expectSum_congr _ _ I.shocks
      (fun t ht => by rw [dvdmNext_eq_blend rpw I a s t h1 (hdm t ht)])]
  · unfold EndOfPrddvds EndOfPrddvdsBlend
    rw [expectSum_congr _ _ I.shocks (fun t ht => by
      rw [dvdmNext_eq_blend rpw I a s t h1 (hdm t ht),
        dvdsNext_eq_blend rpw I a s t h1 (hds t ht)])]
  · unfold EndOfPrdv EndOfPrdvBlend
    rw [expectSum_congr _ _ I.shocks
      (fun t ht => by rw [vNext_eq_blend rpw I a s t h1 (hv t ht)])]

/-- Witness for C9 at the concrete input X1 (terminal next solution, whose
fixed-case functions all evaluate), at the state (a, s) = (1, 1/2). -/
theorem C9_adjust_skip_equivalent_witness :
    EndOfPrddvda ratPow X1 1 (1/2) = EndOfPrddvdaBlend ratPow X1 1 (1/2) ∧
    EndOfPrddvds ratPow X1 1 (1/2) = EndOfPrddvdsBlend ratPow X1 1 (1/2) ∧
    EndOfPrdv ratPow X1 1 (1/2) = EndOfPrdvBlend ratPow X1 1 (1/2) :=
  C9_adjust_skip_equivalent ratPow X1 1 (1/2) rfl
    (by intro t ht
        simp [X1] at ht
        rw [ht]
        simp [X1, solutionTerminal, PFunc.eval])
    (by intro t ht
        simp [X1] at ht
        rw [ht]
        simp [X1, solutionTerminal, PFunc.eval])
    (by intro t ht
        simp [X1] at ht
        rw [ht]
        simp [X1, solutionTerminal, PFunc.eval])

end ConsPortfolio
